import Mathlib

/-!
Verification development for the ig-sentiment-trader risk-gated order
pipeline.  The Python sources under `login_only/` are shallowly embedded:
pandas float Series become lists of `PVal` (rationals extended with the
IEEE special values NaN and the two infinities), pure functions become
Lean functions, ledger/CSV state becomes explicit lists of rows, and
fallible external calls (broker queries, confirmation polling) become
`Option`-valued parameters.  Timestamps are modelled as rational minutes
since the UTC epoch; the `YYYY-MM-DD` prefix filter applied to ISO
timestamp strings corresponds to comparing the enclosing UTC day
(`dayOf`).  Float arithmetic is modelled exactly over `ℚ`; the special
values NaN/inf are tracked explicitly where the code can produce them
(division by zero in the RSI computation).
-/

namespace IGTrader

/-! ## Pandas float values

A cell of a pandas float Series: an actual number, NaN, or an infinity.
`pdDiff`, clipping, rolling means and elementwise arithmetic below follow
the pandas semantics used by `trade_once.py`.
-/

inductive PVal where
  | nan : PVal
  | inf : PVal
  | ninf : PVal
  | val : ℚ → PVal
  deriving DecidableEq, Repr

def PVal.isNan : PVal → Bool
  | PVal.nan => true
  | _ => false

def PVal.isVal : PVal → Bool
  | PVal.val _ => true
  | _ => false

def PVal.toQ : PVal → ℚ
  | PVal.val q => q
  | _ => 0

def pneg : PVal → PVal
  | PVal.nan => PVal.nan
  | PVal.inf => PVal.ninf
  | PVal.ninf => PVal.inf
  | PVal.val a => PVal.val (-a)

def padd : PVal → PVal → PVal
  | PVal.nan, _ => PVal.nan
  | _, PVal.nan => PVal.nan
  | PVal.inf, PVal.ninf => PVal.nan
  | PVal.ninf, PVal.inf => PVal.nan
  | PVal.inf, _ => PVal.inf
  | _, PVal.inf => PVal.inf
  | PVal.ninf, _ => PVal.ninf
  | _, PVal.ninf => PVal.ninf
  | PVal.val a, PVal.val b => PVal.val (a + b)

def psub (x y : PVal) : PVal := padd x (pneg y)

/-- IEEE division on the fragment reachable from the RSI computation
(the model has a single zero, so the sign of a zero quotient is dropped;
no reachable value ever compares a signed zero). -/
def pdiv : PVal → PVal → PVal
  | PVal.nan, _ => PVal.nan
  | _, PVal.nan => PVal.nan
  | PVal.inf, PVal.inf => PVal.nan
  | PVal.inf, PVal.ninf => PVal.nan
  | PVal.ninf, PVal.inf => PVal.nan
  | PVal.ninf, PVal.ninf => PVal.nan
  | PVal.val a, PVal.val b =>
      if b = 0 then
        (if a = 0 then PVal.nan else if 0 < a then PVal.inf else PVal.ninf)
      else PVal.val (a / b)
  | PVal.val _, PVal.inf => PVal.val 0
  | PVal.val _, PVal.ninf => PVal.val 0
  | PVal.inf, PVal.val b => if b < 0 then PVal.ninf else PVal.inf
  | PVal.ninf, PVal.val b => if b < 0 then PVal.inf else PVal.ninf

/-- Float comparison `c > x` (used as `last close > last sma20`):
false whenever `x` is NaN. -/
def qGt (c : ℚ) : PVal → Bool
  | PVal.val a => decide (a < c)
  | PVal.inf => false
  | PVal.ninf => true
  | PVal.nan => false

/-- Float comparison `c < x`. -/
def qLt (c : ℚ) : PVal → Bool
  | PVal.val a => decide (c < a)
  | PVal.inf => true
  | PVal.ninf => false
  | PVal.nan => false

/-- Float comparison `x >= q`. -/
def geQ (x : PVal) (q : ℚ) : Bool :=
  match x with
  | PVal.val a => decide (q ≤ a)
  | PVal.inf => true
  | PVal.ninf => false
  | PVal.nan => false

/-- Float comparison `x <= q`. -/
def leQ (x : PVal) (q : ℚ) : Bool :=
  match x with
  | PVal.val a => decide (a ≤ q)
  | PVal.inf => false
  | PVal.ninf => true
  | PVal.nan => false

/-- `Series.diff()`: first element NaN, then successive differences. -/
def pdDiff (s : List ℚ) : List PVal :=
  (List.range s.length).map fun i =>
    if i = 0 then PVal.nan else PVal.val (s.getD i 0 - s.getD (i - 1) 0)

/-- `d.clip(lower=0)` elementwise (NaN passes through). -/
def clip0 : PVal → PVal
  | PVal.val q => PVal.val (max q 0)
  | PVal.nan => PVal.nan
  | PVal.inf => PVal.inf
  | PVal.ninf => PVal.val 0

/-- `(-d.clip(upper=0))` elementwise. -/
def negClip0 : PVal → PVal
  | PVal.val q => PVal.val (max (-q) 0)
  | PVal.nan => PVal.nan
  | PVal.inf => PVal.val 0
  | PVal.ninf => PVal.inf

/-- `Series.rolling(n, min_periods=n).mean()`: at index `i` the window is
the last `min (n, i+1)` entries; the result is a number iff the window
holds `n` non-NaN entries (so iff `n ≤ i+1` and all of them are numbers). -/
def rollingMean (n : ℕ) (xs : List PVal) : List PVal :=
  (List.range xs.length).map fun i =>
    if i + 1 < n then PVal.nan
    else
      let w := (List.range n).map fun k => xs.getD (i - k) PVal.nan
      if w.all PVal.isVal then PVal.val ((w.map PVal.toQ).sum / (n : ℚ)) else PVal.nan

namespace TradeOnce

/-- `trade_once.sma`: `s.rolling(n, min_periods=n).mean()`. -/
def sma (s : List ℚ) (n : ℕ) : List PVal :=
  rollingMean n (s.map PVal.val)

/-- `100 - (100 / (1 + rs))` elementwise. -/
def rsiFromRs (rs : PVal) : PVal :=
  psub (PVal.val 100) (pdiv (PVal.val 100) (padd (PVal.val 1) rs))

/-- `trade_once.rsi`: simple rolling means of up-moves and down-moves,
`rs = up / dn`, `rsi = 100 - 100/(1+rs)`. -/
def rsi (s : List ℚ) (n : ℕ) : List PVal :=
  let d := pdDiff s
  let up := rollingMean n (d.map clip0)
  let dn := rollingMean n (d.map negClip0)
  (List.zipWith pdiv up dn).map rsiFromRs

/-- `trade_once.simple_signal` evaluated on the frame `run_loop` builds
(close series plus the `sma20` and `rsi14` columns).  `run_loop` never
calls it on an empty frame (it bails out on `df.empty` first). -/
def simple_signal (closes : List ℚ) (rsiBuyMin rsiSellMax : ℚ) (warmupBars : ℕ) : String :=
  if closes.length < warmupBars then "HOLD"
  else
    let i := closes.length - 1
    let close := closes.getD i 0
    let sma20 := (sma closes 20).getD i PVal.nan
    let rsi14 := (rsi closes 14).getD i PVal.nan
    if sma20.isNan || rsi14.isNan then "HOLD"
    else if qGt close sma20 && geQ rsi14 rsiBuyMin then "BUY"
    else if qLt close sma20 && leQ rsi14 rsiSellMax then "SELL"
    else "HOLD"

/-- Python 3 `round`: round half to even. -/
def pyRound (q : ℚ) : ℤ :=
  let f := ⌊q⌋
  if q - f < 1/2 then f
  else if 1/2 < q - f then f + 1
  else if f % 2 = 0 then f else f + 1

/-- `trade_once.snap`. -/
def snap (value step : ℚ) (mode : String) : ℚ :=
  if step ≤ 0 then value
  else
    let k := value / step
    if mode = "up" then ⌈k⌉ * step
    else if mode = "nearest" then (pyRound k : ℚ) * step
    else ⌊k⌋ * step

/-- Market metadata fields read by `trade_once.py` (already extracted from
the nested broker JSON; `none` models a missing/unparseable entry). -/
structure Market where
  contractSize : Option ℚ
  minDealSizeValue : Option ℚ
  minDealSizeStep : Option ℚ
  minStopValue : Option ℚ
  deriving DecidableEq, Repr

/-- Python `x or d` on an optional float: `d` when missing, `None`, or `0.0`
(zero is falsy). -/
def pyOr (x : Option ℚ) (d : ℚ) : ℚ :=
  match x with
  | some v => if v = 0 then d else v
  | none => d

/-- `trade_once.value_per_point`: `float(market.instrument.contractSize)`,
0.0 when missing or unparseable. -/
def value_per_point (mk : Market) : ℚ :=
  mk.contractSize.getD 0

/-- `trade_once.min_size_and_step`. -/
def min_size_and_step (mk : Market) : ℚ × ℚ :=
  (pyOr mk.minDealSizeValue 1, pyOr mk.minDealSizeStep (pyOr mk.minDealSizeValue 1))

/-- `trade_once.min_stop_points`. -/
def min_stop_points (mk : Market) : ℚ :=
  pyOr mk.minStopValue 0

/-- `trade_once.sized_order`; `none` models the `RuntimeError` raised when
the value-per-point is not positive.  Returns `(size, raw)`. -/
def sized_order (mk : Market) (riskGbp stopPts : ℚ) (roundMode : String) : Option (ℚ × ℚ) :=
  let vpp := value_per_point mk
  if vpp ≤ 0 then none
  else
    let raw := riskGbp / (max stopPts (1/1000000000) * vpp)
    let ms := min_size_and_step mk
    let size := snap raw ms.2 roundMode
    some (if size < ms.1 then ms.1 else size, raw)

end TradeOnce

namespace Wilder

/-- Modelled from the spec (the Wilder RSI definition of section 4.1, not
present in `trade_once.py`): last value of an exponential moving average
with smoothing factor `α`, `adjust=False` (`y₁ = x₁`,
`yₜ = (1-α)·yₜ₋₁ + α·xₜ`); `none` on an empty series. -/
def ewmLast (α : ℚ) : List ℚ → Option ℚ
  | [] => none
  | x :: xs => some (xs.foldl (fun acc y => (1 - α) * acc + α * y) x)

/-- Modelled from the spec: Wilder RSI(n) at bar `i` — exponential moving
averages of up-moves and down-moves with smoothing factor `1/n`,
`RS = avgUp/avgDown`, `RSI = 100 - 100/(1+RS)` (100 when `avgDown = 0`
and `avgUp ≠ 0`), null until `n+1` observations exist. -/
def wilderRsiAt (s : List ℚ) (n : ℕ) (i : ℕ) : Option ℚ :=
  if i < n ∨ s.length ≤ i then none
  else
    let diffs := (List.range i).map fun j => s.getD (j + 1) 0 - s.getD j 0
    let u := (ewmLast (1 / (n : ℚ)) (diffs.map fun d => max d 0)).getD 0
    let dn := (ewmLast (1 / (n : ℚ)) (diffs.map fun d => max (-d) 0)).getD 0
    if dn = 0 then (if u = 0 then none else some 100)
    else some (100 - 100 / (1 + u / dn))

end Wilder

namespace TradeOnce

/-- The sizing-related quantities `run_loop` computes for one watchlist
item and records on its ORDER_DRY / ORDER_SENT / post-size-block rows. -/
structure SizingOutcome where
  stopPts : ℚ
  limitPts : ℚ
  sizeFinal : ℚ
  sizeRaw : ℚ
  effRisk : ℚ
  deriving DecidableEq, Repr

/-- The per-item sizing fragment of `run_loop`: raise the configured stop
to the instrument minimum when below it, recompute the limit distance as
`risk_reward × stop`, size via `sized_order(..., round_mode="down")`, and
compute `eff_risk = size * vpp * stop_pts`; `none` models the logged
`size_error` path. -/
def runItemSizing (mk : Market) (cfgStopPts rr riskGbp : ℚ) : Option SizingOutcome :=
  let vpp := value_per_point mk
  let minStop := min_stop_points mk
  let stopPts := if cfgStopPts < minStop then minStop else cfgStopPts
  let limitPts := rr * stopPts
  match sized_order mk riskGbp stopPts "down" with
  | none => none
  | some sr => some ⟨stopPts, limitPts, sr.1, sr.2, sr.1 * vpp * stopPts⟩

end TradeOnce

/-- Python `str.upper()` over the character list (extensionally
`String.toUpper`, in a form that evaluates by reduction). -/
def pyUpper (s : String) : String := ⟨s.data.map Char.toUpper⟩

namespace RiskGuards

/-- One CSV ledger row, restricted to the fields the guard rollups read
(`ts_utc` parsed to rational minutes since the UTC epoch, `name`, `event`,
`eff_risk_gbp`).  `effRisk = none` models an empty/missing or unparseable
`eff_risk_gbp` cell (both contribute nothing to the committed-risk sum). -/
structure Row where
  ts : ℚ
  name : String
  event : String
  effRisk : Option ℚ
  deriving DecidableEq, Repr

/-- UTC day of a timestamp in minutes; the `startswith(today)` filter on a
well-formed ISO `ts_utc` string compares exactly this. -/
def dayOf (t : ℚ) : ℤ := ⌊t / 1440⌋

/-- `risk_guards.orders_today`: today's rows of the log. -/
def orders_today (ledger : List Row) (now : ℚ) : List Row :=
  ledger.filter fun r => decide (dayOf r.ts = dayOf now)

/-- `risk_guards.orders_today_for_instrument`. -/
def orders_today_for_instrument (ledger : List Row) (now : ℚ) (name : String) : List Row :=
  (orders_today ledger now).filter fun r => r.name == name

/-- `(r.get("event") or "").upper() in ("ORDER_SENT","ORDER_DRY")`. -/
def isOrderEvent (r : Row) : Bool :=
  pyUpper r.event == "ORDER_SENT" || pyUpper r.event == "ORDER_DRY"

/-- `risk_guards.count_orders_today_instrument`. -/
def count_orders_today_instrument (ledger : List Row) (now : ℚ) (name : String) : ℕ :=
  ((orders_today_for_instrument ledger now name).filter isOrderEvent).length

/-- `risk_guards.last_order_time_instrument`: latest timestamp among today's
ORDER_SENT/ORDER_DRY rows for the instrument. -/
def last_order_time_instrument (ledger : List Row) (now : ℚ) (name : String) : Option ℚ :=
  (((orders_today_for_instrument ledger now name).filter isOrderEvent).map Row.ts).max?

/-- `risk_guards.today_committed_risk_gbp`. -/
def today_committed_risk (ledger : List Row) (now : ℚ) : ℚ :=
  ((orders_today ledger now).filter isOrderEvent).foldl (fun acc r => acc + r.effRisk.getD 0) 0

/-- The `trading_hours` sub-config with `start`/`end` parsed from "HH:MM"
into minutes since local midnight. -/
structure THConfig where
  enabled : Bool
  startMin : ℚ
  endMin : ℚ
  deriving DecidableEq, Repr

/-- `risk_guards.in_trading_window`.  The code converts `now` to the
configured zone and compares it with same-day datetimes built from the
configured start/end; on one local day this is exactly a comparison of
times-of-day, so the model takes the already-converted local time of day
(minutes since local midnight) as input. -/
def in_trading_window (th : Option THConfig) (localMin : ℚ) : Bool :=
  match th with
  | none => true
  | some t =>
    if ¬ t.enabled then true
    else if t.startMin ≤ t.endMin then decide (t.startMin ≤ localMin ∧ localMin ≤ t.endMin)
    else decide (t.startMin ≤ localMin ∨ localMin ≤ t.endMin)

/-- The `risk_guards` section of the bot config after the `int(... or 0)` /
`float(... or 0.0)` normalizations applied at each read site. -/
structure RGConfig where
  enabled : Bool
  maxTradesPerRun : ℤ
  maxConcurrentPositions : ℤ
  tradingHours : Option THConfig
  maxTradesPerDay : ℤ
  cooldownMin : ℤ
  dailyRiskBudget : ℚ
  dailyLossLimit : ℚ
  deriving DecidableEq, Repr

/-- `risk_guards.GuardResult` (the audit `meta` map is diagnostics only and
is not modelled). -/
structure GuardResult where
  ok : Bool
  reason : String
  deriving DecidableEq, Repr

/-- `risk_guards.guard_preflight`.  `posResp` is the result of the
`ig.positions()` query: `none` models the query raising, in which case the
code sets `open_n = 0`. -/
def guard_preflight (cfg : RGConfig) (posResp : Option (List Unit)) (runTradeCount : ℤ) : GuardResult :=
  if ¬ cfg.enabled then ⟨true, "RG_DISABLED"⟩
  else if cfg.maxTradesPerRun ≠ 0 ∧ cfg.maxTradesPerRun ≤ runTradeCount then
    ⟨false, "BLOCK_MAX_TRADES_PER_RUN"⟩
  else
    let openN : ℤ := match posResp with | none => 0 | some l => (l.length : ℤ)
    if cfg.maxConcurrentPositions ≠ 0 ∧ cfg.maxConcurrentPositions ≤ openN then
      ⟨false, "BLOCK_MAX_CONCURRENT_POSITIONS"⟩
    else ⟨true, "RG_OK"⟩

/-- The cooldown test of `guard_postsize`:
`last_ts and _now_utc() < last_ts + timedelta(minutes=cooldown_min)`. -/
def cooldownHit (cooldownMin : ℤ) (ledger : List Row) (now : ℚ) (name : String) : Bool :=
  match last_order_time_instrument ledger now name with
  | some t => decide (now < t + (cooldownMin : ℚ))
  | none => false

/-- The daily-loss-limit test of `guard_postsize`.  `balance` is the
`(baseline, current)` pair produced by `ensure_daily_baseline_and_loss`
(the baseline-file round trip is abstracted); `none` models an
unobtainable balance, for which the code deliberately allows. -/
def lossLimitHit (dll : ℚ) (balance : Option (ℚ × ℚ)) : Bool :=
  match balance with
  | none => false
  | some bc => decide (dll - 1/1000000000 ≤ max 0 (bc.1 - bc.2))

/-- `risk_guards.guard_postsize`: the ordered post-size chain
(trading hours, per-instrument daily cap, cooldown, daily risk budget,
daily loss limit).  `now` is the UTC instant in minutes; `localMin` is the
same instant converted to the configured zone, as minutes since local
midnight. -/
def guard_postsize (cfg : RGConfig) (ledger : List Row) (name : String)
    (plannedEffRisk : ℚ) (now localMin : ℚ) (balance : Option (ℚ × ℚ)) : GuardResult :=
  if ¬ cfg.enabled then ⟨true, "RG_DISABLED"⟩
  else if ¬ in_trading_window cfg.tradingHours localMin then
    ⟨false, "BLOCK_TRADING_WINDOW"⟩
  else if cfg.maxTradesPerDay ≠ 0 ∧
      cfg.maxTradesPerDay ≤ (count_orders_today_instrument ledger now name : ℤ) then
    ⟨false, "BLOCK_MAX_TRADES_PER_DAY_INSTRUMENT"⟩
  else if 0 < cfg.cooldownMin ∧ cooldownHit cfg.cooldownMin ledger now name then
    ⟨false, "BLOCK_COOLDOWN_INSTRUMENT"⟩
  else if 0 < cfg.dailyRiskBudget ∧
      cfg.dailyRiskBudget + 1/1000000000 < today_committed_risk ledger now + max 0 plannedEffRisk then
    ⟨false, "BLOCK_DAILY_RISK_BUDGET"⟩
  else if 0 < cfg.dailyLossLimit ∧ lossLimitHit cfg.dailyLossLimit balance then
    ⟨false, "BLOCK_DAILY_LOSS_LIMIT"⟩
  else ⟨true, "RG2_OK"⟩

end RiskGuards

namespace TradeOnce

/-- The ledger row `run_loop` appends for an order event (ORDER_DRY at
line 467, ORDER_SENT at line 478), restricted to the fields the guard
rollups later read: the effective risk `eff_risk_gbp` is written out
(serialized with two decimals), not hidden. -/
def orderLogRow (ts : ℚ) (name : String) (event : String) (o : SizingOutcome) : RiskGuards.Row :=
  ⟨ts, name, event, some o.effRisk⟩

end TradeOnce

namespace ConfirmEnrich

/-- A broker open position as normalized by
`confirm_and_enrich.load_positions` (direction already upper-cased;
`created = none` models a missing/unparseable created timestamp, which
`pick_match.ts` maps to `datetime.min`, below every real timestamp). -/
structure Pos where
  dealId : Option String
  epic : String
  direction : String
  size : Option ℚ
  created : Option ℚ
  deriving DecidableEq, Repr

/-- A `/confirms/{dealReference}` response body (dict case).  `none`
fields model missing or empty values (Python tests them for truthiness). -/
structure Confirm where
  dealId : Option String
  dealStatus : Option String
  deriving DecidableEq, Repr

/-- One poll attempt: `none` models an exception or a non-dict response. -/
def confirmAttemptHit (a : Option Confirm) : Option Confirm :=
  match a with
  | some d => if d.dealId.isSome || d.dealStatus.isSome then some d else none
  | none => none

/-- `confirm_and_enrich.try_confirm` over the bounded attempt list (6
attempts in the code): the first response carrying a deal id or a deal
status wins; `none` means all attempts were exhausted. -/
def tryConfirm (attempts : List (Option Confirm)) : Option Confirm :=
  attempts.findSome? confirmAttemptHit

/-- First element of a list minimizing `f` — the head of a stable
ascending sort by `f`, which is how `cands.sort(key=f); cands[0]`
evaluates. -/
def firstMinBy {α β : Type} [LinearOrder β] (f : α → β) : List α → Option α
  | [] => none
  | x :: xs => some (xs.foldl (fun best y => if f y < f best then y else best) x)

/-- First element of a list maximizing `f` — the head of a stable
descending sort by `f` (`sort(key=f, reverse=True); cands[0]`). -/
def firstMaxBy {α β : Type} [LinearOrder β] (f : α → β) : List α → Option α
  | [] => none
  | x :: xs => some (xs.foldl (fun best y => if f best < f y then y else best) x)

/-- The `ts` sort key of `pick_match`: parsed created timestamp, with
`datetime.min` (bottom) for unparseable ones. -/
def tsKey (p : Pos) : WithBot ℚ :=
  match p.created with
  | none => ⊥
  | some t => (t : WithBot ℚ)

/-- `confirm_and_enrich.pick_match`. -/
def pick_match (positions : List Pos) (epic direction : String) (sizeHint : Option ℚ) : Option Pos :=
  let cands := positions.filter fun p => p.epic == epic && p.direction == direction
  match cands with
  | [] => none
  | _ =>
    match sizeHint with
    | some h => firstMinBy (fun p => |p.size.getD 0 - h|) cands
    | none => firstMaxBy tsKey cands

/-- A row of the enrichment CSV log, restricted to the fields the
reconciler reads and writes (`payloadPos` / `payloadConfirm` stand for the
serialized `payload_json` blob). -/
structure LRow where
  event : String
  runId : String
  epic : String
  signal : String
  dealReference : String
  sizeFinal : Option ℚ
  payloadPos : Option Pos
  payloadConfirm : Option Confirm
  deriving DecidableEq, Repr

/-- The row appended on direct-confirmation success. -/
def confirmOkRow (r : LRow) (d : Confirm) : LRow :=
  { r with event := "CONFIRM_OK", signal := pyUpper r.signal,
           payloadPos := none, payloadConfirm := some d }

/-- The row appended on fallback success: `payload_json` serializes the
matched position (hence carries its `dealId`). -/
def fallbackRow (r : LRow) (m : Pos) : LRow :=
  { r with event := "CONFIRM_FALLBACK_OK", signal := pyUpper r.signal,
           payloadPos := some m, payloadConfirm := none }

/-- The row appended when both polling and fallback matching fail. -/
def confirmFailRow (r : LRow) : LRow :=
  { r with event := "CONFIRM_FAIL", signal := pyUpper r.signal,
           payloadPos := none, payloadConfirm := none }

/-- The body of `confirm_and_enrich.main`'s loop for one ORDER_SENT row
`r`: poll `try_confirm`; on exhaustion run `pick_match` over the open
positions; append exactly one outcome row to the log (the log file is
opened in append mode only — `write_log_row` never rewrites). -/
def enrichStep (attempts : List (Option Confirm)) (positions : List Pos)
    (r : LRow) (log : List LRow) : List LRow :=
  match tryConfirm attempts with
  | some d => log ++ [confirmOkRow r d]
  | none =>
    match pick_match positions r.epic (pyUpper r.signal) r.sizeFinal with
    | some m => log ++ [fallbackRow r m]
    | none => log ++ [confirmFailRow r]

end ConfirmEnrich

/-! ## Statement-level definitions

Closed-form quantities the claims speak about, used to state theorems
about the series-level pipeline computations. -/

/-- The trailing `n`-bar arithmetic mean of up-moves ending at bar `i`
(the "14-period average of up-moves" of the spec). -/
def upWindowAvg (s : List ℚ) (n i : ℕ) : ℚ :=
  (((List.range n).map fun k => max (s.getD (i - k) 0 - s.getD (i - k - 1) 0) 0).sum) / (n : ℚ)

/-- The trailing `n`-bar arithmetic mean of down-moves ending at bar `i`
(the "14-period average of down-moves" of the spec). -/
def dnWindowAvg (s : List ℚ) (n i : ℕ) : ℚ :=
  (((List.range n).map fun k => max (s.getD (i - k - 1) 0 - s.getD (i - k) 0) 0).sum) / (n : ℚ)

/-- A pandas cell that is NaN or a nonnegative number. -/
def nanOrNonneg (x : PVal) : Prop :=
  x = PVal.nan ∨ ∃ q : ℚ, 0 ≤ q ∧ x = PVal.val q

/-- Close series with one up-move and one down-move followed by a flat
stretch: 15 observations, so RSI(14) is first defined at bar 14. -/
def exUpDown : List ℚ := [0, 1, 0, 0, 0, 0, 0, 0, 0, 0, 0, 0, 0, 0, 0]

/-- A flat 15-observation close series: every up-move and down-move is 0. -/
def exFlat : List ℚ := [5, 5, 5, 5, 5, 5, 5, 5, 5, 5, 5, 5, 5, 5, 5]

/-- Twenty bars: nineteen closes at 5490 and a final close at 5500. -/
def exBuyBars : List ℚ := List.replicate 19 5490 ++ [5500]

/-- Fourteen flat closes followed by a single rise: in the window ending
at bar 14 every down-move is 0 while the average up-move is positive. -/
def exRise : List ℚ := [0, 0, 0, 0, 0, 0, 0, 0, 0, 0, 0, 0, 0, 0, 1]

/-- A concrete open position used in the reconciliation witness. -/
def exPos : ConfirmEnrich.Pos := ⟨some "D1", "EP", "BUY", some 1, some 100⟩

/-- A concrete ORDER_SENT log row used in the reconciliation witness. -/
def exSentRow : ConfirmEnrich.LRow :=
  ⟨"ORDER_SENT", "r1", "EP", "BUY", "ref", some 1, none, none⟩

/-! ## Helper lemmas on the series combinators -/

theorem pdDiff_length (s : List ℚ) : (pdDiff s).length = s.length := by
  simp [pdDiff]

theorem rollingMean_length (n : ℕ) (xs : List PVal) :
    (rollingMean n xs).length = xs.length := by
  simp [rollingMean]

theorem rollingMean_getD (n : ℕ) (xs : List PVal) (i : ℕ) (h : i < xs.length) :
    (rollingMean n xs).getD i PVal.nan =
      if i + 1 < n then PVal.nan
      else
        let w := (List.range n).map fun k => xs.getD (i - k) PVal.nan
        if w.all PVal.isVal then PVal.val ((w.map PVal.toQ).sum / (n : ℚ)) else PVal.nan := by
  have hlen : i < (rollingMean n xs).length := by rw [rollingMean_length]; exact h
  rw [List.getD_eq_getElem _ _ hlen]
  simp only [rollingMean, List.getElem_map, List.getElem_range]

theorem rsi_length (s : List ℚ) (n : ℕ) : (TradeOnce.rsi s n).length = s.length := by
  simp [TradeOnce.rsi, rollingMean_length, pdDiff_length]

theorem rsi_getD_eq (s : List ℚ) (n i : ℕ) (h : i < s.length) :
    (TradeOnce.rsi s n).getD i PVal.nan =
      TradeOnce.rsiFromRs
        (pdiv ((rollingMean n ((pdDiff s).map clip0)).getD i PVal.nan)
              ((rollingMean n ((pdDiff s).map negClip0)).getD i PVal.nan)) := by
  have h1 : i < (TradeOnce.rsi s n).length := by rw [rsi_length]; exact h
  have hup : i < (rollingMean n ((pdDiff s).map clip0)).length := by
    rw [rollingMean_length, List.length_map, pdDiff_length]; exact h
  have hdn : i < (rollingMean n ((pdDiff s).map negClip0)).length := by
    rw [rollingMean_length, List.length_map, pdDiff_length]; exact h
  rw [List.getD_eq_getElem _ _ h1, List.getD_eq_getElem _ _ hup, List.getD_eq_getElem _ _ hdn]
  simp only [TradeOnce.rsi, List.getElem_map, List.getElem_zipWith]

theorem pdDiff_getElem (s : List ℚ) (j : ℕ) (h : j < (pdDiff s).length) :
    (pdDiff s)[j] = if j = 0 then PVal.nan else PVal.val (s.getD j 0 - s.getD (j - 1) 0) := by
  simp only [pdDiff, List.getElem_map, List.getElem_range]

theorem rollingMean_clip0_getD (s : List ℚ) (n i : ℕ) (hni : n ≤ i)
    (hi : i < s.length) :
    (rollingMean n ((pdDiff s).map clip0)).getD i PVal.nan = PVal.val (upWindowAvg s n i) := by
  have hlen : i < ((pdDiff s).map clip0).length := by
    rw [List.length_map, pdDiff_length]; exact hi
  rw [rollingMean_getD _ _ _ hlen]
  have hnot : ¬ (i + 1 < n) := by omega
  rw [if_neg hnot]
  have hw : ((List.range n).map fun k => ((pdDiff s).map clip0).getD (i - k) PVal.nan)
      = (List.range n).map fun k =>
          PVal.val (max (s.getD (i - k) 0 - s.getD (i - k - 1) 0) 0) := by
    apply List.map_congr_left
    intro k hk
    rw [List.mem_range] at hk
    have hik : i - k < s.length := by omega
    have hik0 : ¬ (i - k = 0) := by omega
    have hlk : i - k < ((pdDiff s).map clip0).length := by
      rw [List.length_map, pdDiff_length]; exact hik
    rw [List.getD_eq_getElem _ _ hlk]
    simp only [List.getElem_map]
    rw [pdDiff_getElem s (i - k) (by rw [pdDiff_length]; exact hik), if_neg hik0]
    rfl
  rw [hw]
  have hall : ((List.range n).map fun k =>
      PVal.val (max (s.getD (i - k) 0 - s.getD (i - k - 1) 0) 0)).all PVal.isVal = true := by
    simp [PVal.isVal]
  rw [if_pos hall, List.map_map]
  rfl

theorem rollingMean_negClip0_getD (s : List ℚ) (n i : ℕ) (hni : n ≤ i)
    (hi : i < s.length) :
    (rollingMean n ((pdDiff s).map negClip0)).getD i PVal.nan = PVal.val (dnWindowAvg s n i) := by
  have hlen : i < ((pdDiff s).map negClip0).length := by
    rw [List.length_map, pdDiff_length]; exact hi
  rw [rollingMean_getD _ _ _ hlen]
  have hnot : ¬ (i + 1 < n) := by omega
  rw [if_neg hnot]
  have hw : ((List.range n).map fun k => ((pdDiff s).map negClip0).getD (i - k) PVal.nan)
      = (List.range n).map fun k =>
          PVal.val (max (s.getD (i - k - 1) 0 - s.getD (i - k) 0) 0) := by
    apply List.map_congr_left
    intro k hk
    rw [List.mem_range] at hk
    have hik : i - k < s.length := by omega
    have hik0 : ¬ (i - k = 0) := by omega
    have hlk : i - k < ((pdDiff s).map negClip0).length := by
      rw [List.length_map, pdDiff_length]; exact hik
    rw [List.getD_eq_getElem _ _ hlk]
    simp only [List.getElem_map]
    rw [pdDiff_getElem s (i - k) (by rw [pdDiff_length]; exact hik), if_neg hik0]
    show PVal.val (max (-(s.getD (i - k) 0 - s.getD (i - k - 1) 0)) 0) = _
    rw [neg_sub]
  rw [hw]
  have hall : ((List.range n).map fun k =>
      PVal.val (max (s.getD (i - k - 1) 0 - s.getD (i - k) 0) 0)).all PVal.isVal = true := by
    simp [PVal.isVal]
  rw [if_pos hall, List.map_map]
  rfl

theorem rsiFromRs_nan : TradeOnce.rsiFromRs PVal.nan = PVal.nan := rfl

theorem pdiv_nan_left (x : PVal) : pdiv PVal.nan x = PVal.nan := by
  cases x <;> rfl

theorem rsi_getD_nan_of_lt (s : List ℚ) (n i : ℕ) (hn : 1 ≤ n) (h : i < n) :
    (TradeOnce.rsi s n).getD i PVal.nan = PVal.nan := by
  by_cases hl : i < s.length
  · rw [rsi_getD_eq s n i hl]
    have hup : (rollingMean n ((pdDiff s).map clip0)).getD i PVal.nan = PVal.nan := by
      have hlen : i < ((pdDiff s).map clip0).length := by
        rw [List.length_map, pdDiff_length]; exact hl
      rw [rollingMean_getD _ _ _ hlen]
      by_cases hsm : i + 1 < n
      · rw [if_pos hsm]
      · rw [if_neg hsm]
        have hin : i + 1 = n := by omega
        have hmem : ((List.range n).map fun k =>
            ((pdDiff s).map clip0).getD (i - k) PVal.nan).all PVal.isVal = false := by
          rw [List.all_eq_false]
          refine ⟨((pdDiff s).map clip0).getD (i - (n - 1)) PVal.nan, ?_, ?_⟩
          · exact List.mem_map_of_mem _ (List.mem_range.mpr (by omega))
          · have hz : i - (n - 1) = 0 := by omega
            rw [hz]
            have h0 : 0 < ((pdDiff s).map clip0).length := by
              rw [List.length_map, pdDiff_length]; omega
            rw [List.getD_eq_getElem _ _ h0]
            simp only [List.getElem_map]
            rw [pdDiff_getElem s 0 (by rw [pdDiff_length]; omega), if_pos rfl]
            simp [clip0, PVal.isVal]
        simp only [hmem, Bool.false_eq_true, if_false]
    rw [hup, pdiv_nan_left]
    exact rsiFromRs_nan
  · apply List.getD_eq_default
    rw [rsi_length]; omega

theorem rollingMean_getD_nanOrNonneg (n : ℕ) (xs : List PVal)
    (hxs : ∀ x ∈ xs, nanOrNonneg x) (i : ℕ) :
    nanOrNonneg ((rollingMean n xs).getD i PVal.nan) := by
  by_cases hl : i < xs.length
  · rw [rollingMean_getD _ _ _ hl]
    by_cases hsm : i + 1 < n
    · rw [if_pos hsm]; exact Or.inl rfl
    · rw [if_neg hsm]
      by_cases hall : ((List.range n).map fun k => xs.getD (i - k) PVal.nan).all PVal.isVal = true
      · rw [if_pos hall]
        refine Or.inr ⟨_, ?_, rfl⟩
        apply div_nonneg _ (by positivity)
        apply List.sum_nonneg
        intro q hq
        rw [List.mem_map] at hq
        obtain ⟨x, hx, hxq⟩ := hq
        rw [List.all_eq_true] at hall
        have hxv := hall x hx
        rw [List.mem_map] at hx
        obtain ⟨k, _, hk⟩ := hx
        have hmem : x = PVal.nan ∨ x ∈ xs := by
          by_cases hik : i - k < xs.length
          · right; rw [← hk, List.getD_eq_getElem _ _ hik]; exact List.getElem_mem _
          · left; rw [← hk]; exact List.getD_eq_default _ _ (by omega)
        rcases hmem with hx0 | hx0
        · rw [hx0] at hxv; simp [PVal.isVal] at hxv
        · rcases hxs x hx0 with h1 | ⟨a, ha, h1⟩
          · rw [h1] at hxv; simp [PVal.isVal] at hxv
          · rw [← hxq, h1]; simpa [PVal.toQ] using ha
      · rw [if_neg hall]; exact Or.inl rfl
  · rw [List.getD_eq_default _ _ (by rw [rollingMean_length]; omega)]
    exact Or.inl rfl

theorem clip0_nanOrNonneg (x : PVal) (hx : x ≠ PVal.inf) : nanOrNonneg (clip0 x) := by
  cases x with
  | nan => exact Or.inl rfl
  | inf => exact absurd rfl hx
  | ninf => exact Or.inr ⟨0, le_refl 0, rfl⟩
  | val q => exact Or.inr ⟨max q 0, le_max_right q 0, rfl⟩

theorem negClip0_nanOrNonneg (x : PVal) (hx : x ≠ PVal.ninf) : nanOrNonneg (negClip0 x) := by
  cases x with
  | nan => exact Or.inl rfl
  | inf => exact Or.inr ⟨0, le_refl 0, rfl⟩
  | ninf => exact absurd rfl hx
  | val q => exact Or.inr ⟨max (-q) 0, le_max_right (-q) 0, rfl⟩

theorem pdDiff_not_infty (s : List ℚ) (x : PVal) (hx : x ∈ pdDiff s) :
    x ≠ PVal.inf ∧ x ≠ PVal.ninf := by
  simp only [pdDiff, List.mem_map, List.mem_range] at hx
  obtain ⟨i, _, hi⟩ := hx
  by_cases h0 : i = 0
  · rw [h0, if_pos rfl] at hi
    constructor <;> (rw [← hi]; intro hc; cases hc)
  · rw [if_neg h0] at hi
    constructor <;> (rw [← hi]; intro hc; cases hc)

/-- The elements the pipeline RSI produces are numbers or NaN, never an
infinity (the intermediate `±inf` from a zero `avgDown` collapses back to
100 in `100 - 100/(1+rs)`). -/
theorem rsi_getD_nanOrVal (s : List ℚ) (n i : ℕ) :
    (TradeOnce.rsi s n).getD i PVal.nan = PVal.nan ∨
    ∃ q : ℚ, (TradeOnce.rsi s n).getD i PVal.nan = PVal.val q := by
  by_cases hl : i < s.length
  · rw [rsi_getD_eq s n i hl]
    have hup : nanOrNonneg ((rollingMean n ((pdDiff s).map clip0)).getD i PVal.nan) := by
      apply rollingMean_getD_nanOrNonneg
      intro x hx
      rw [List.mem_map] at hx
      obtain ⟨y, hy, hxy⟩ := hx
      rw [← hxy]
      exact clip0_nanOrNonneg y (pdDiff_not_infty s y hy).1
    have hdn : nanOrNonneg ((rollingMean n ((pdDiff s).map negClip0)).getD i PVal.nan) := by
      apply rollingMean_getD_nanOrNonneg
      intro x hx
      rw [List.mem_map] at hx
      obtain ⟨y, hy, hxy⟩ := hx
      rw [← hxy]
      exact negClip0_nanOrNonneg y (pdDiff_not_infty s y hy).2
    rcases hup with hu | ⟨a, ha, hu⟩ <;> rcases hdn with hd | ⟨b, hb, hd⟩ <;> rw [hu, hd]
    · exact Or.inl rfl
    · exact Or.inl rfl
    · exact Or.inl rfl
    · by_cases hb0 : b = 0
      · by_cases ha0 : a = 0
        · left
          simp [pdiv, hb0, ha0, TradeOnce.rsiFromRs, padd, psub, pneg]
        · right
          have hapos : 0 < a := lt_of_le_of_ne ha (Ne.symm ha0)
          refine ⟨100, ?_⟩
          simp [pdiv, hb0, ha0, hapos, TradeOnce.rsiFromRs, padd, psub, pneg]
      · right
        have hq : (0:ℚ) < 1 + a / b := by
          have : 0 ≤ a / b := div_nonneg ha (lt_of_le_of_ne hb (Ne.symm hb0)).le
          linarith
        refine ⟨100 - 100 / (1 + a / b), ?_⟩
        simp only [pdiv, if_neg hb0, TradeOnce.rsiFromRs, padd]
        rw [if_neg (by linarith : ¬ (1 + a / b = 0))]
        simp [psub, pneg, padd]
        ring
  · left
    exact List.getD_eq_default _ _ (by rw [rsi_length]; omega)

/-- Closed form of the pipeline RSI at a bar where it is defined: the
Cutler formula over trailing arithmetic means, with `avgDown = 0`
resolving to 100 when `avgUp` is nonzero and to NaN when the window is
flat. -/
theorem rsi_getD_char (s : List ℚ) (n i : ℕ) (hn : 1 ≤ n) (hni : n ≤ i) (hi : i < s.length) :
    (TradeOnce.rsi s n).getD i PVal.nan =
      (if dnWindowAvg s n i = 0 then
        (if upWindowAvg s n i = 0 then PVal.nan else PVal.val 100)
      else PVal.val (100 - 100 / (1 + upWindowAvg s n i / dnWindowAvg s n i))) := by
  rw [rsi_getD_eq s n i hi, rollingMean_clip0_getD s n i hni hi,
    rollingMean_negClip0_getD s n i hni hi]
  have hu : 0 ≤ upWindowAvg s n i := by
    apply div_nonneg _ (by positivity)
    apply List.sum_nonneg
    intro q hq
    rw [List.mem_map] at hq
    obtain ⟨k, _, hk⟩ := hq
    rw [← hk]; exact le_max_right _ _
  have hd : 0 ≤ dnWindowAvg s n i := by
    apply div_nonneg _ (by positivity)
    apply List.sum_nonneg
    intro q hq
    rw [List.mem_map] at hq
    obtain ⟨k, _, hk⟩ := hq
    rw [← hk]; exact le_max_right _ _
  by_cases hb0 : dnWindowAvg s n i = 0
  · rw [if_pos hb0]
    by_cases ha0 : upWindowAvg s n i = 0
    · rw [if_pos ha0]
      simp [pdiv, hb0, ha0, TradeOnce.rsiFromRs, padd, psub, pneg]
    · rw [if_neg ha0]
      have hapos : 0 < upWindowAvg s n i := lt_of_le_of_ne hu (Ne.symm ha0)
      simp [pdiv, hb0, ha0, hapos, TradeOnce.rsiFromRs, padd, psub, pneg]
  · rw [if_neg hb0]
    have hq : (0:ℚ) < 1 + upWindowAvg s n i / dnWindowAvg s n i := by
      have : 0 ≤ upWindowAvg s n i / dnWindowAvg s n i :=
        div_nonneg hu (lt_of_le_of_ne hd (Ne.symm hb0)).le
      linarith
    simp only [pdiv, if_neg hb0, TradeOnce.rsiFromRs, padd]
    rw [if_neg (by linarith : ¬ (1 + upWindowAvg s n i / dnWindowAvg s n i = 0))]
    simp [psub, pneg, padd]
    ring

theorem rollingMean_getD_nanOrVal (n : ℕ) (xs : List PVal) (i : ℕ) :
    (rollingMean n xs).getD i PVal.nan = PVal.nan ∨
    ∃ q : ℚ, (rollingMean n xs).getD i PVal.nan = PVal.val q := by
  by_cases hl : i < xs.length
  · rw [rollingMean_getD _ _ _ hl]
    by_cases h1 : i + 1 < n
    · rw [if_pos h1]; exact Or.inl rfl
    · rw [if_neg h1]
      by_cases h2 : ((List.range n).map fun k => xs.getD (i - k) PVal.nan).all PVal.isVal = true
      · rw [if_pos h2]; exact Or.inr ⟨_, rfl⟩
      · simp only [if_neg h1]
        rw [if_neg h2]; exact Or.inl rfl
  · exact Or.inl (List.getD_eq_default _ _ (by rw [rollingMean_length]; omega))

theorem sma_getD_nanOrVal (s : List ℚ) (n i : ℕ) :
    (TradeOnce.sma s n).getD i PVal.nan = PVal.nan ∨
    ∃ q : ℚ, (TradeOnce.sma s n).getD i PVal.nan = PVal.val q := by
  unfold TradeOnce.sma
  exact rollingMean_getD_nanOrVal n (s.map PVal.val) i

theorem isNan_nan : PVal.nan.isNan = true := rfl

theorem isNan_val (q : ℚ) : (PVal.val q).isNan = false := rfl

theorem qGt_val (c a : ℚ) : qGt c (PVal.val a) = decide (a < c) := rfl

theorem qLt_val (c a : ℚ) : qLt c (PVal.val a) = decide (c < a) := rfl

theorem geQ_val (a q : ℚ) : geQ (PVal.val a) q = decide (q ≤ a) := rfl

theorem leQ_val (a q : ℚ) : leQ (PVal.val a) q = decide (a ≤ q) := rfl

/-! ## Claim theorems -/

unseal Rat.add Rat.mul Rat.inv Rat.sub in
/-- Claim C2, counterexample: on the 15-bar series `exUpDown` the
pipeline's `rsi` (simple rolling means) gives 50 at bar 14, while the
Wilder definition the claim asserts gives 650/7; so the pipeline RSI does
not equal the Wilder RSI. -/
theorem c2_counterexample :
    (TradeOnce.rsi exUpDown 14).getD 14 PVal.nan = PVal.val 50 ∧
    Wilder.wilderRsiAt exUpDown 14 14 = some (650 / 7) ∧
    (50 : ℚ) ≠ 650 / 7 := by
  refine ⟨by decide, by decide, by norm_num⟩

/-- Claim C2 (amended): for every close-price series, the RSI(14) column
computed by `trade_once.rsi` equals Cutler's definition — trailing
arithmetic 14-bar means of up-moves and down-moves, `RS = avgUp/avgDown`,
`RSI = 100 - 100/(1+RS)` (resolving to 100 when `avgDown = 0 ≠ avgUp` and
to NaN on a flat window) — and is null until `period + 1` observations
exist. -/
theorem c2_rsi_is_rolling_mean (s : List ℚ) (i : ℕ) :
    (i < 14 → (TradeOnce.rsi s 14).getD i PVal.nan = PVal.nan) ∧
    (14 ≤ i → i < s.length →
      (TradeOnce.rsi s 14).getD i PVal.nan =
        (if dnWindowAvg s 14 i = 0 then
          (if upWindowAvg s 14 i = 0 then PVal.nan else PVal.val 100)
        else PVal.val (100 - 100 / (1 + upWindowAvg s 14 i / dnWindowAvg s 14 i)))) := by
  constructor
  · intro h
    exact rsi_getD_nan_of_lt s 14 i (by norm_num) h
  · intro h1 h2
    exact rsi_getD_char s 14 i (by norm_num) h1 h2

unseal Rat.add Rat.mul Rat.inv Rat.sub in
/-- Witness for C2's amended theorem at the concrete series `exUpDown`:
at bar 14 the characterization applies (and evaluates to 50), and at bar 2
the column is still null. -/
theorem c2_witness :
    (TradeOnce.rsi exUpDown 14).getD 14 PVal.nan =
      (if dnWindowAvg exUpDown 14 14 = 0 then
        (if upWindowAvg exUpDown 14 14 = 0 then PVal.nan else PVal.val 100)
      else PVal.val (100 - 100 / (1 + upWindowAvg exUpDown 14 14 / dnWindowAvg exUpDown 14 14))) ∧
    (TradeOnce.rsi exUpDown 14).getD 2 PVal.nan = PVal.nan :=
  ⟨(c2_rsi_is_rolling_mean exUpDown 14).2 (by norm_num) (by decide),
   (c2_rsi_is_rolling_mean exUpDown 2).1 (by norm_num)⟩

unseal Rat.add Rat.mul Rat.inv Rat.sub in
/-- Claim C7, counterexample: on the flat series `exFlat` the 14-period
average of down-moves at bar 14 is exactly 0, yet the computed `rsi14`
cell is NaN (0/0 propagates), not 100. -/
theorem c7_counterexample :
    dnWindowAvg exFlat 14 14 = 0 ∧
    (TradeOnce.rsi exFlat 14).getD 14 PVal.nan = PVal.nan := by
  refine ⟨by decide, by decide⟩

/-- Claim C7 (amended): at a defined bar whose 14-period average of
down-moves is exactly 0, the computed `rsi14` resolves to 100 provided
the 14-period average of up-moves is nonzero; on a fully flat window
(both averages 0) it is NaN instead. -/
theorem c7_rsi_avgdown_zero (s : List ℚ) (i : ℕ) (h14 : 14 ≤ i) (hl : i < s.length)
    (hdn : dnWindowAvg s 14 i = 0) (hup : upWindowAvg s 14 i ≠ 0) :
    (TradeOnce.rsi s 14).getD i PVal.nan = PVal.val 100 := by
  rw [rsi_getD_char s 14 i (by norm_num) h14 hl, if_pos hdn, if_neg hup]

unseal Rat.add Rat.mul Rat.inv Rat.sub in
/-- Witness for C7's amended theorem: on `exRise`, bar 14 has zero average
down-move, positive average up-move, and RSI exactly 100. -/
theorem c7_witness :
    (TradeOnce.rsi exRise 14).getD 14 PVal.nan = PVal.val 100 :=
  c7_rsi_avgdown_zero exRise 14 (by norm_num) (by decide) (by decide) (by decide)

/-- Claim C8: with fewer than `warmup_bars` rows `simple_signal` returns
HOLD; with at least that many rows it returns BUY iff the last bar has
defined `sma20`/`rsi14` values with `close > sma20` and `rsi14 ≥` the buy
threshold, SELL iff they are defined with `close < sma20` and `rsi14 ≤`
the sell threshold, and HOLD in every other case (in particular whenever
either indicator is still null). -/
theorem c8_simple_signal_cases (closes : List ℚ) (buyMin sellMax : ℚ) (warmup : ℕ) :
    (closes.length < warmup → TradeOnce.simple_signal closes buyMin sellMax warmup = "HOLD") ∧
    (warmup ≤ closes.length →
      ((TradeOnce.simple_signal closes buyMin sellMax warmup = "BUY" ↔
          (∃ a r : ℚ,
            (TradeOnce.sma closes 20).getD (closes.length - 1) PVal.nan = PVal.val a ∧
            (TradeOnce.rsi closes 14).getD (closes.length - 1) PVal.nan = PVal.val r ∧
            a < closes.getD (closes.length - 1) 0 ∧ buyMin ≤ r)) ∧
       (TradeOnce.simple_signal closes buyMin sellMax warmup = "SELL" ↔
          (∃ a r : ℚ,
            (TradeOnce.sma closes 20).getD (closes.length - 1) PVal.nan = PVal.val a ∧
            (TradeOnce.rsi closes 14).getD (closes.length - 1) PVal.nan = PVal.val r ∧
            closes.getD (closes.length - 1) 0 < a ∧ r ≤ sellMax)) ∧
       (TradeOnce.simple_signal closes buyMin sellMax warmup = "HOLD" ↔
          (¬ (∃ a r : ℚ,
            (TradeOnce.sma closes 20).getD (closes.length - 1) PVal.nan = PVal.val a ∧
            (TradeOnce.rsi closes 14).getD (closes.length - 1) PVal.nan = PVal.val r ∧
            a < closes.getD (closes.length - 1) 0 ∧ buyMin ≤ r) ∧
           ¬ (∃ a r : ℚ,
            (TradeOnce.sma closes 20).getD (closes.length - 1) PVal.nan = PVal.val a ∧
            (TradeOnce.rsi closes 14).getD (closes.length - 1) PVal.nan = PVal.val r ∧
            closes.getD (closes.length - 1) 0 < a ∧ r ≤ sellMax))))) := by
  constructor
  · intro h
    unfold TradeOnce.simple_signal
    rw [if_pos h]
  · intro h
    have hnlt : ¬ (closes.length < warmup) := not_lt.mpr h
    have hseq : TradeOnce.simple_signal closes buyMin sellMax warmup =
        (if ((TradeOnce.sma closes 20).getD (closes.length - 1) PVal.nan).isNan
            || ((TradeOnce.rsi closes 14).getD (closes.length - 1) PVal.nan).isNan then "HOLD"
         else if qGt (closes.getD (closes.length - 1) 0)
              ((TradeOnce.sma closes 20).getD (closes.length - 1) PVal.nan)
            && geQ ((TradeOnce.rsi closes 14).getD (closes.length - 1) PVal.nan) buyMin then "BUY"
         else if qLt (closes.getD (closes.length - 1) 0)
              ((TradeOnce.sma closes 20).getD (closes.length - 1) PVal.nan)
            && leQ ((TradeOnce.rsi closes 14).getD (closes.length - 1) PVal.nan) sellMax then "SELL"
         else "HOLD") := by
      unfold TradeOnce.simple_signal
      rw [if_neg hnlt]
    rw [hseq]
    rcases sma_getD_nanOrVal closes 20 (closes.length - 1) with hs | ⟨a, hs⟩
    · rw [hs]
      simp [isNan_nan]
    · rcases rsi_getD_nanOrVal closes 14 (closes.length - 1) with hr | ⟨r, hr⟩
      · rw [hs, hr]
        simp [isNan_nan, isNan_val]
      · rw [hs, hr]
        simp only [isNan_val, qGt_val, qLt_val, geQ_val, leQ_val, PVal.val.injEq,
          Bool.or_self, Bool.false_or, Bool.and_eq_true, decide_eq_true_eq]
        clear hs hr hseq hnlt h
        refine ⟨?_, ?_, ?_⟩ <;> split_ifs with h1 h2 <;> simp_all <;>
          (intro hc; linarith)

unseal Rat.add Rat.mul Rat.inv Rat.sub in
/-- Witness for C8 at the spec's concrete instance: twenty bars,
close 5500 above the 20-bar mean 5490.5, RSI 100 at or above the buy
threshold 55 — signal BUY. -/
theorem c8_witness : TradeOnce.simple_signal exBuyBars 55 45 20 = "BUY" :=
  (((c8_simple_signal_cases exBuyBars 55 45 20).2 (by decide)).1).mpr
    ⟨10981/2, 100, by decide, by decide, by decide, by decide⟩

/-- The cooldown test of `guard_postsize`, spelled out: it fires exactly
when today's latest order-row timestamp for the instrument exists and is
within `cooldownMin` minutes of now. -/
theorem cooldownHit_iff (cd : ℤ) (ledger : List RiskGuards.Row) (now : ℚ) (name : String) :
    RiskGuards.cooldownHit cd ledger now name = true ↔
      ∃ t, RiskGuards.last_order_time_instrument ledger now name = some t ∧
        now < t + (cd : ℚ) := by
  unfold RiskGuards.cooldownHit
  cases h : RiskGuards.last_order_time_instrument ledger now name <;> simp [h]

/-- Claim C5: when the configured end time is earlier than the start time,
an enabled trading-hours window spans two days — a local time of day is
inside iff it is at or after the start or at or before the end. -/
theorem c5_wrap_window (t : RiskGuards.THConfig) (localMin : ℚ)
    (hen : t.enabled = true) (hwrap : t.endMin < t.startMin) :
    RiskGuards.in_trading_window (some t) localMin = true ↔
      (t.startMin ≤ localMin ∨ localMin ≤ t.endMin) := by
  have hw : RiskGuards.in_trading_window (some t) localMin =
      (if ¬ t.enabled then true
       else if t.startMin ≤ t.endMin then decide (t.startMin ≤ localMin ∧ localMin ≤ t.endMin)
       else decide (t.startMin ≤ localMin ∨ localMin ≤ t.endMin)) := rfl
  rw [hw, hen]
  rw [if_neg (by simp), if_neg (not_le.mpr hwrap)]
  simp

/-- Witness for C5 at the spec's 22:00-06:00 window (minutes 1320 and
360): 23:30 local (minute 1410) is inside, 12:00 local (minute 720) is
outside. -/
theorem c5_witness :
    RiskGuards.in_trading_window (some ⟨true, 1320, 360⟩) 1410 = true ∧
    RiskGuards.in_trading_window (some ⟨true, 1320, 360⟩) 720 = false := by
  constructor
  · exact (c5_wrap_window ⟨true, 1320, 360⟩ 1410 rfl (by norm_num)).mpr (Or.inl (by norm_num))
  · decide

/-- Claim C1: with guards enabled, the trading-hours, per-instrument-cap
and cooldown checks passing, a positive configured daily budget and a
nonnegative planned risk, `guard_postsize` blocks with the
daily-risk-budget reason iff the sum of effective risk over today's
order-class ledger rows plus the planned risk exceeds the budget by more
than the 1e-9 tolerance. -/
theorem c1_daily_risk_budget (cfg : RiskGuards.RGConfig) (ledger : List RiskGuards.Row)
    (name : String) (planned now localMin : ℚ) (bal : Option (ℚ × ℚ))
    (hen : cfg.enabled = true)
    (hwin : RiskGuards.in_trading_window cfg.tradingHours localMin = true)
    (hcap : ¬ (cfg.maxTradesPerDay ≠ 0 ∧
      cfg.maxTradesPerDay ≤ (RiskGuards.count_orders_today_instrument ledger now name : ℤ)))
    (hcd : ¬ (0 < cfg.cooldownMin ∧
      RiskGuards.cooldownHit cfg.cooldownMin ledger now name = true))
    (hb : 0 < cfg.dailyRiskBudget) (hp : 0 ≤ planned) :
    ((RiskGuards.guard_postsize cfg ledger name planned now localMin bal).ok = false ∧
     (RiskGuards.guard_postsize cfg ledger name planned now localMin bal).reason =
       "BLOCK_DAILY_RISK_BUDGET") ↔
      cfg.dailyRiskBudget + 1/1000000000 <
        RiskGuards.today_committed_risk ledger now + planned := by
  have hmax : max 0 planned = planned := max_eq_right hp
  unfold RiskGuards.guard_postsize
  rw [hen, hwin, hmax]
  rw [if_neg (by simp : ¬ ¬ (true : Bool) = true),
    if_neg (by simp : ¬ ¬ (true : Bool) = true), if_neg hcap, if_neg hcd]
  by_cases hcond : cfg.dailyRiskBudget + 1/1000000000 <
      RiskGuards.today_committed_risk ledger now + planned
  · rw [if_pos ⟨hb, hcond⟩]
    simpa using hcond
  · rw [if_neg (fun hh => hcond hh.2)]
    split_ifs <;> simpa using hcond

unseal Rat.add Rat.mul Rat.inv Rat.sub in
/-- Witness for C1 at the spec's concrete instance: budget 100, one order
row today committing 80, planned risk 25; 80 + 25 exceeds 100 and the
guard blocks with the daily-risk-budget reason. -/
theorem c1_witness :
    (RiskGuards.guard_postsize ⟨true, 0, 0, none, 0, 0, 100, 0⟩
        [⟨600, "X", "ORDER_SENT", some 80⟩] "X" 25 700 700 none).ok = false ∧
    (RiskGuards.guard_postsize ⟨true, 0, 0, none, 0, 0, 100, 0⟩
        [⟨600, "X", "ORDER_SENT", some 80⟩] "X" 25 700 700 none).reason =
      "BLOCK_DAILY_RISK_BUDGET" :=
  (c1_daily_risk_budget ⟨true, 0, 0, none, 0, 0, 100, 0⟩
      [⟨600, "X", "ORDER_SENT", some 80⟩] "X" 25 700 700 none
      rfl rfl (by simp) (by simp [RiskGuards.cooldownHit]) (by norm_num)
      (by norm_num)).mpr (by decide)

unseal Rat.add Rat.mul Rat.inv Rat.sub in
/-- Claim C6, counterexample: the latest (only) order-class ledger row for
instrument X is at minute 1435 (day 0, 23:55); with a 30-minute cooldown,
evaluation at minute 1445 (day 1, 00:05) satisfies now < 1435 + 30, yet
`guard_postsize` allows, because the cooldown scan is restricted to rows
dated the current UTC day and day 1 has none. -/
theorem c6_counterexample :
    RiskGuards.guard_postsize ⟨true, 0, 0, none, 0, 30, 0, 0⟩
        [⟨1435, "X", "ORDER_SENT", some 10⟩] "X" 0 1445 5 none =
      ⟨true, "RG2_OK"⟩ ∧
    (1445 : ℚ) < 1435 + ((30 : ℤ) : ℚ) := by
  refine ⟨by decide, by norm_num⟩

/-- Claim C6 (amended): with guards enabled, the trading-hours and
per-instrument-cap checks passing and cooldownMinutes > 0,
`guard_postsize` blocks with the cooldown reason iff a latest order-class
ledger row for the instrument dated the current UTC day exists and
now < its timestamp + cooldownMinutes (with no such row today, the check
passes). -/
theorem c6_cooldown (cfg : RiskGuards.RGConfig) (ledger : List RiskGuards.Row)
    (name : String) (planned now localMin : ℚ) (bal : Option (ℚ × ℚ))
    (hen : cfg.enabled = true)
    (hwin : RiskGuards.in_trading_window cfg.tradingHours localMin = true)
    (hcap : ¬ (cfg.maxTradesPerDay ≠ 0 ∧
      cfg.maxTradesPerDay ≤ (RiskGuards.count_orders_today_instrument ledger now name : ℤ)))
    (hcdpos : 0 < cfg.cooldownMin) :
    ((RiskGuards.guard_postsize cfg ledger name planned now localMin bal).ok = false ∧
     (RiskGuards.guard_postsize cfg ledger name planned now localMin bal).reason =
       "BLOCK_COOLDOWN_INSTRUMENT") ↔
      ∃ t, RiskGuards.last_order_time_instrument ledger now name = some t ∧
        now < t + (cfg.cooldownMin : ℚ) := by
  rw [← cooldownHit_iff cfg.cooldownMin ledger now name]
  unfold RiskGuards.guard_postsize
  rw [hen, hwin]
  rw [if_neg (by simp : ¬ ¬ (true : Bool) = true),
    if_neg (by simp : ¬ ¬ (true : Bool) = true), if_neg hcap]
  by_cases hhit : RiskGuards.cooldownHit cfg.cooldownMin ledger now name = true
  · rw [if_pos ⟨hcdpos, hhit⟩]
    simpa using hhit
  · rw [if_neg (fun hh => hhit hh.2)]
    split_ifs <;> simpa using hhit

unseal Rat.add Rat.mul Rat.inv Rat.sub in
/-- Witness for C6's amended theorem at the spec's concrete instance:
cooldown 30 minutes, last order at minute 600; evaluation at minute 610
blocks with the cooldown reason, evaluation at minute 631 allows. -/
theorem c6_witness :
    (RiskGuards.guard_postsize ⟨true, 0, 0, none, 0, 30, 0, 0⟩
        [⟨600, "X", "ORDER_SENT", some 10⟩] "X" 0 610 610 none).reason =
      "BLOCK_COOLDOWN_INSTRUMENT" ∧
    RiskGuards.guard_postsize ⟨true, 0, 0, none, 0, 30, 0, 0⟩
        [⟨600, "X", "ORDER_SENT", some 10⟩] "X" 0 631 631 none =
      ⟨true, "RG2_OK"⟩ :=
  ⟨((c6_cooldown ⟨true, 0, 0, none, 0, 30, 0, 0⟩
      [⟨600, "X", "ORDER_SENT", some 10⟩] "X" 0 610 610 none
      rfl rfl (by simp) (by norm_num)).mpr ⟨600, by decide, by norm_num⟩).2,
   by decide⟩

/-- Claim C9: with guards enabled, a positive max-concurrent-positions cap
and the per-run trade-count check passing, a failing broker open-positions
query (`posResp = none`) is treated as zero open positions and
`guard_preflight` returns allowed (documented fail-open). -/
theorem c9_preflight_fail_open (cfg : RiskGuards.RGConfig) (runTradeCount : ℤ)
    (hen : cfg.enabled = true) (hmcp : 0 < cfg.maxConcurrentPositions)
    (hmtr : ¬ (cfg.maxTradesPerRun ≠ 0 ∧ cfg.maxTradesPerRun ≤ runTradeCount)) :
    RiskGuards.guard_preflight cfg none runTradeCount = ⟨true, "RG_OK"⟩ := by
  unfold RiskGuards.guard_preflight
  rw [hen]
  rw [if_neg (by simp : ¬ ¬ (true : Bool) = true), if_neg hmtr,
    if_neg (fun hh => absurd hmcp (not_lt.mpr hh.2))]

/-- Witness for C9: guards enabled, cap 3, no trades this run, broker
query raising — preflight allows. -/
theorem c9_witness :
    RiskGuards.guard_preflight ⟨true, 0, 3, none, 0, 0, 0, 0⟩ none 0 =
      ⟨true, "RG_OK"⟩ :=
  c9_preflight_fail_open ⟨true, 0, 3, none, 0, 0, 0, 0⟩ 0 rfl (by norm_num) (by simp)

/-- Claim C3: when direct confirmation polling has exhausted all attempts
and exactly one open position shares the submitted order's epic and
direction, the reconciler appends a CONFIRM_FALLBACK_OK row whose payload
serializes that position (hence carries its deal id), and the pre-existing
log rows — the original ORDER_SENT row included — are unchanged: the
result is exactly the old log plus one appended row. -/
theorem c3_fallback_appends (attempts : List (Option ConfirmEnrich.Confirm))
    (positions : List ConfirmEnrich.Pos) (r : ConfirmEnrich.LRow)
    (log : List ConfirmEnrich.LRow) (p : ConfirmEnrich.Pos)
    (hfail : ConfirmEnrich.tryConfirm attempts = none)
    (huniq : positions.filter
        (fun q => q.epic == r.epic && q.direction == pyUpper r.signal) = [p]) :
    ConfirmEnrich.enrichStep attempts positions r log =
      log ++ [ConfirmEnrich.fallbackRow r p] ∧
    (ConfirmEnrich.fallbackRow r p).event = "CONFIRM_FALLBACK_OK" ∧
    (ConfirmEnrich.fallbackRow r p).payloadPos = some p ∧
    (ConfirmEnrich.enrichStep attempts positions r log).take log.length = log := by
  have hpick : ConfirmEnrich.pick_match positions r.epic (pyUpper r.signal) r.sizeFinal =
      some p := by
    unfold ConfirmEnrich.pick_match
    rw [huniq]
    cases r.sizeFinal <;>
      simp [ConfirmEnrich.firstMinBy, ConfirmEnrich.firstMaxBy]
  have hstep : ConfirmEnrich.enrichStep attempts positions r log =
      log ++ [ConfirmEnrich.fallbackRow r p] := by
    unfold ConfirmEnrich.enrichStep
    rw [hfail, hpick]
  refine ⟨hstep, rfl, rfl, ?_⟩
  rw [hstep, List.take_left]

/-- Witness for C3: two exhausted poll attempts, a single open position
sharing epic EP and direction BUY — the appended row is the fallback row
carrying the position (deal id D1) and the old log (one ORDER_SENT row)
is the untouched front of the result. -/
theorem c3_witness :
    ConfirmEnrich.enrichStep [none, none] [exPos] exSentRow [exSentRow] =
      [exSentRow] ++ [ConfirmEnrich.fallbackRow exSentRow exPos] ∧
    (ConfirmEnrich.fallbackRow exSentRow exPos).payloadPos = some exPos :=
  ⟨(c3_fallback_appends [none, none] [exPos] exSentRow [exSentRow] exPos rfl
      (by decide)).1,
   (c3_fallback_appends [none, none] [exPos] exSentRow [exSentRow] exPos rfl
      (by decide)).2.2.1⟩

unseal Rat.add Rat.mul Rat.inv Rat.sub in
/-- Claim C4, counterexample: `sized_order` computes
`raw = risk / (max(stop, 1e-9) × vpp)`, not `risk / (stop × vpp)`; at
stop = 1e-10 (pointValue 10, risk 50) the code returns raw 5e9 while the
claim's formula gives 5e10. -/
theorem c4_counterexample :
    (TradeOnce.sized_order ⟨some 10, some (1/2), some (1/2), some 0⟩
        50 (1/10000000000) "down").map Prod.snd = some (5 * 10 ^ 9) ∧
    (50 : ℚ) / (1/10000000000 * 10) = 5 * 10 ^ 10 ∧
    (5 * 10 ^ 9 : ℚ) ≠ 5 * 10 ^ 10 := by
  refine ⟨by decide, by norm_num, by norm_num⟩

unseal Rat.add Rat.mul Rat.inv Rat.sub in
/-- Claim C4 (amended): for pointValue > 0 and stop ≥ 1e-9 the sizer
returns rawSize = riskAmount/(stopDistancePoints × pointValue), snaps it
to a multiple of sizeStep per the rounding mode and floors the result to
minSize; at the spec's instance (risk 50, stop 60, pointValue 10,
minSize = step = 0.5, round down) the final size is 0.5 with effective
risk 300, and the order ledger row records that effective risk. -/
theorem c4_sizing (mk : TradeOnce.Market) (risk stop : ℚ) (mode : String)
    (hv : 0 < TradeOnce.value_per_point mk) (hs : 1/1000000000 ≤ stop) :
    TradeOnce.sized_order mk risk stop mode =
      some
        (if TradeOnce.snap (risk / (stop * TradeOnce.value_per_point mk))
              (TradeOnce.min_size_and_step mk).2 mode < (TradeOnce.min_size_and_step mk).1
         then (TradeOnce.min_size_and_step mk).1
         else TradeOnce.snap (risk / (stop * TradeOnce.value_per_point mk))
              (TradeOnce.min_size_and_step mk).2 mode,
         risk / (stop * TradeOnce.value_per_point mk)) ∧
    TradeOnce.runItemSizing ⟨some 10, some (1/2), some (1/2), some 0⟩ 60 2 50 =
      some ⟨60, 120, 1/2, 1/12, 300⟩ ∧
    (∀ (ts : ℚ) (nm ev : String) (o : TradeOnce.SizingOutcome),
      (TradeOnce.orderLogRow ts nm ev o).effRisk = some o.effRisk) := by
  refine ⟨?_, by decide, fun ts nm ev o => rfl⟩
  unfold TradeOnce.sized_order
  rw [if_neg (not_le.mpr hv), max_eq_left hs]

unseal Rat.add Rat.mul Rat.inv Rat.sub in
/-- Witness for C4's amended theorem: the general sizing equation applied
at the spec's concrete market (pointValue 10, minSize = step = 0.5) with
risk 50 and stop 60 yields size 0.5 and raw 1/12. -/
theorem c4_witness :
    TradeOnce.sized_order ⟨some 10, some (1/2), some (1/2), some 0⟩ 50 60 "down" =
      some (1/2, 1/12) := by
  have h := (c4_sizing ⟨some 10, some (1/2), some (1/2), some 0⟩ 50 60 "down"
    (by norm_num [TradeOnce.value_per_point]) (by norm_num)).1
  rw [h]
  decide

/-- Claim C10: when a watchlist item's configured stop is below the
instrument's minimum stop distance, `run_loop` raises the stop to that
minimum and recomputes the limit as riskReward × the raised stop before
sizing; the order size and effective risk are computed from the raised
stop (the computation equals the one for a configured stop equal to the
minimum). -/
theorem c10_min_stop_raise (mk : TradeOnce.Market) (cfgStop rr risk : ℚ)
    (h : cfgStop < TradeOnce.min_stop_points mk) :
    TradeOnce.runItemSizing mk cfgStop rr risk =
      TradeOnce.runItemSizing mk (TradeOnce.min_stop_points mk) rr risk ∧
    ∀ o, TradeOnce.runItemSizing mk cfgStop rr risk = some o →
      o.stopPts = TradeOnce.min_stop_points mk ∧
      o.limitPts = rr * TradeOnce.min_stop_points mk ∧
      o.effRisk = o.sizeFinal * TradeOnce.value_per_point mk *
        TradeOnce.min_stop_points mk := by
  have heq : TradeOnce.runItemSizing mk cfgStop rr risk =
      TradeOnce.runItemSizing mk (TradeOnce.min_stop_points mk) rr risk := by
    unfold TradeOnce.runItemSizing
    dsimp only
    rw [if_pos h, if_neg (lt_irrefl _)]
  refine ⟨heq, ?_⟩
  intro o ho
  rw [heq] at ho
  unfold TradeOnce.runItemSizing at ho
  dsimp only at ho
  rw [if_neg (lt_irrefl _)] at ho
  cases hso : TradeOnce.sized_order mk risk (TradeOnce.min_stop_points mk) "down" with
  | none => rw [hso] at ho; cases ho
  | some sr =>
    rw [hso] at ho
    cases ho
    exact ⟨rfl, rfl, rfl⟩

unseal Rat.add Rat.mul Rat.inv Rat.sub in
/-- Witness for C10: minimum stop 5, configured stop 3 — the sizing
outcome uses stop 5, limit 10 (riskReward 2) and effective risk
1 × 10 × 5 = 50 for risk 50 and pointValue 10. -/
theorem c10_witness :
    TradeOnce.runItemSizing ⟨some 10, some 1, some 1, some 5⟩ 3 2 50 =
      TradeOnce.runItemSizing ⟨some 10, some 1, some 1, some 5⟩ 5 2 50 ∧
    TradeOnce.runItemSizing ⟨some 10, some 1, some 1, some 5⟩ 3 2 50 =
      some ⟨5, 10, 1, 1, 50⟩ :=
  ⟨(c10_min_stop_raise ⟨some 10, some 1, some 1, some 5⟩ 3 2 50 (by decide)).1,
   by decide⟩

end IGTrader
